import Mathlib

/-!
Verification of the SWE-Week-Tracker dashboard logic (src/utils/helpers.js
and src/App.jsx): `formatCurrency`, `calculateMetrics`, the `filteredData`
visibility predicate, the toggle-done handler, and the CSV export.

JavaScript values that can hold either a number or a string (the `cost`
field) are modelled by the inductive `JsVal`; numbers are modelled as
integers (all costs in the repository are integers and the spec sanctions
exact arithmetic).  The object `costsByType` is modelled as an
insertion-ordered association list (a plain dictionary); the iteration
order of `Object.entries`, which lists own keys that are canonical
array-index strings first in ascending numeric order and every other key
in insertion order, is modelled explicitly by `jsEntries`.
`Array.prototype.sort` is stable and consistent with its comparator
(ES2019), so it is modelled by a stable insertion sort over the preorder
induced by the comparator.
-/

/-- A JavaScript value as far as this program inspects one: a number, a
string, or anything else (`typeof v !== 'number'` and not a string this
program compares against). -/
inductive JsVal where
  | num (n : Int)
  | str (s : String)
  | other
deriving DecidableEq

/-- One record of the procurement list (the shape used by the source). -/
structure LineItem where
  id : String
  type : String
  description : String
  event : String
  cost : JsVal
  costType : String
  status : String
  excludeFromSum : Bool
  done : Bool
deriving DecidableEq

/-- Digits of `n`, reversed and grouped in threes with `','`, as
`Number.prototype.toLocaleString('en-US')` groups them. -/
def groupRev : List Char → List Char
  | c1 :: c2 :: c3 :: c4 :: rest => c1 :: c2 :: c3 :: ',' :: groupRev (c4 :: rest)
  | l => l

/-- `n.toLocaleString('en-US')` for a natural number. -/
def natGrouped (n : Nat) : String :=
  String.mk ((groupRev (toString n).data.reverse).reverse)

/-- `n.toLocaleString('en-US')` for an integer. -/
def intLocaleString (n : Int) : String :=
  if n < 0 then "-" ++ natGrouped n.natAbs else natGrouped n.natAbs

/-- Translation of `formatCurrency` (src/utils/helpers.js lines 1-5): the
source first compares `amount === 'N/A'` (true exactly for the string
`"N/A"`), then returns `'Error'` unless `typeof amount === 'number'`, and
otherwise formats the number. -/
def formatCurrency (amount : JsVal) : String :=
  match amount with
  | JsVal.str s => if s = "N/A" then "N/A" else "Error"
  | JsVal.num n => "₦" ++ intLocaleString n
  | JsVal.other => "Error"

theorem naira_append_ne_NA (s : String) : "₦" ++ s ≠ "N/A" := by
  intro h
  have hd : ("₦" ++ s).data = ("N/A" : String).data := by rw [h]
  rw [String.data_append] at hd
  have : '₦' = 'N' := by
    have : '₦' :: s.data = ['N', '/', 'A'] := hd
    exact (List.cons.injEq _ _ _ _).mp this |>.1
  exact absurd this (by decide)

/-- C6: `formatCurrency` returns `"N/A"` exactly on the string `"N/A"`,
`"Error"` on every other non-numeric value, and prefixes a number with `₦`
grouped with en-US thousands separators, so `format 1000 = "₦1,000"` and
`format 0 = "₦0"`. -/
theorem formatCurrency_spec :
    (∀ v : JsVal, formatCurrency v = "N/A" ↔ v = JsVal.str "N/A") ∧
    (∀ s : String, formatCurrency (JsVal.str s) =
        if s = "N/A" then "N/A" else "Error") ∧
    formatCurrency JsVal.other = "Error" ∧
    (∀ n : Int, formatCurrency (JsVal.num n) = "₦" ++ intLocaleString n) ∧
    formatCurrency (JsVal.num 1000) = "₦1,000" ∧
    formatCurrency (JsVal.num 0) = "₦0" ∧
    formatCurrency (JsVal.num 1234567) = "₦1,234,567" := by
  refine ⟨?_, fun s => rfl, by decide, fun n => rfl, by decide, by decide, by decide⟩
  intro v
  constructor
  · intro h
    cases v with
    | num n => exact absurd h (naira_append_ne_NA _)
    | str s =>
        by_cases hs : s = "N/A"
        · rw [hs]
        · rw [show formatCurrency (JsVal.str s) = if s = "N/A" then "N/A" else "Error"
              from rfl, if_neg hs] at h
          exact absurd h (by decide)
    | other => exact absurd h (by decide)
  · intro h; rw [h]; rfl

/-- A phase bucket of `costsByType`: `{ total: 0, items: [] }` and its
updates. -/
structure Bucket where
  total : Int
  items : List LineItem
deriving DecidableEq

/-- One element of `top3CostGroupings`: `{ phase, total }`. -/
structure Grouping where
  phase : String
  total : Int
deriving DecidableEq

/-- The value returned by `calculateMetrics`. -/
structure Metrics where
  totalConfirmedBudget : Int
  unpricedItems : List LineItem
  top3CostGroupings : List Grouping
deriving DecidableEq

/-- The accumulator threaded through the `data.forEach` loop. -/
structure AggState where
  totalConfirmedBudget : Int
  unpricedItems : List LineItem
  costsByType : List (String × Bucket)
deriving DecidableEq

/-- Does the dictionary have an own entry for `k`?  (`costsByType[phase]`
is truthy exactly when the bucket object has been created.) -/
def hasKey (m : List (String × Bucket)) (k : String) : Bool :=
  m.any (fun p => p.1 == k)

/-- `if (!costsByType[phase]) costsByType[phase] = { total: 0, items: [] }`:
a fresh key is appended at the end of the insertion order. -/
def ensureKey (m : List (String × Bucket)) (k : String) : List (String × Bucket) :=
  if hasKey m k then m else m ++ [(k, ⟨0, []⟩)]

/-- In-place update of the bucket stored at key `k`. -/
def modifyBucket (m : List (String × Bucket)) (k : String) (f : Bucket → Bucket) :
    List (String × Bucket) :=
  m.map (fun p => if p.1 = k then (p.1, f p.2) else p)

/-- The body of `data.forEach(item => ...)` (src/utils/helpers.js lines
12-32): add a confirmed cost to the total, collect unpriced items, and
group costs by `item.event`. -/
def processItem (st : AggState) (item : LineItem) : AggState :=
  let st1 :=
    match item.cost with
    | JsVal.num n =>
        if item.excludeFromSum then st
        else { st with totalConfirmedBudget := st.totalConfirmedBudget + n }
    | _ => st
  let st2 :=
    if item.status == "Unpriced" then
      { st1 with unpricedItems := st1.unpricedItems ++ [item] }
    else st1
  let m0 := ensureKey st2.costsByType item.event
  let m1 :=
    match item.cost with
    | JsVal.num n =>
        if item.excludeFromSum then m0
        else modifyBucket m0 item.event (fun b => { b with total := b.total + n })
    | _ => m0
  { st2 with
      costsByType := modifyBucket m1 item.event (fun b => { b with items := b.items ++ [item] }) }

/-- Is `s` a canonical array-index string (the decimal numeral of some
`n < 2^32 - 1`, without leading zeros)?  ECMAScript orders such own keys
first, in ascending numeric order, when `Object.entries` lists them. -/
def canonicalIndexString (s : String) : Bool :=
  let cs := s.data
  !cs.isEmpty && cs.all Char.isDigit &&
    (cs.head? != some '0' || cs.length == 1) &&
    cs.foldl (fun n c => n * 10 + (c.toNat - 48)) 0 < 4294967295

/-- Numeric value of an array-index key. -/
def indexKeyVal (s : String) : Nat :=
  s.data.foldl (fun n c => n * 10 + (c.toNat - 48)) 0

/-- Ascending order on array-index keys. -/
def idxLe (a b : String × Bucket) : Prop :=
  indexKeyVal a.1 ≤ indexKeyVal b.1

instance : DecidableRel idxLe := fun a b => Nat.decLe (indexKeyVal a.1) (indexKeyVal b.1)

/-- The order induced by the comparator `(a, b) => b.total - a.total`
(`a` may precede `b` iff the comparator is nonpositive, i.e. descending
by total). -/
def entryLe (a b : String × Bucket) : Prop :=
  b.2.total ≤ a.2.total

instance : DecidableRel entryLe := fun a b => Int.decLe b.2.total a.2.total

instance : IsTotal (String × Bucket) entryLe :=
  ⟨fun a b => le_total b.2.total a.2.total⟩

instance : IsTrans (String × Bucket) entryLe :=
  ⟨fun _ _ _ h1 h2 => le_trans h2 h1⟩

/-- `Object.entries(costsByType)`: own array-index keys first in ascending
numeric order, then the remaining keys in insertion order. -/
def jsEntries (m : List (String × Bucket)) : List (String × Bucket) :=
  List.insertionSort idxLe (m.filter (fun p => canonicalIndexString p.1)) ++
    m.filter (fun p => !canonicalIndexString p.1)

/-- Does `pat` occur as a contiguous run inside `l`?  (Scan of every
suffix; `String.prototype.includes`.) -/
def hasInfix (pat : List Char) : List Char → Bool
  | [] => pat.isEmpty
  | c :: t => pat.isPrefixOf (c :: t) || hasInfix pat t

/-- `s.includes(pat)`. -/
def strIncludes (s pat : String) : Bool :=
  hasInfix pat.data s.data

/-- The filter applied to the phase entries before sorting:
`!key.includes('Summary') && !key.includes('Budget') && value.total > 0`. -/
def groupKeep (p : String × Bucket) : Bool :=
  !strIncludes p.1 "Summary" && !strIncludes p.1 "Budget" && decide (0 < p.2.total)

/-- Translation of `calculateMetrics` (src/utils/helpers.js lines 7-46). -/
def calculateMetrics (data : List LineItem) : Metrics :=
  let st := data.foldl processItem ⟨0, [], []⟩
  let sortedCosts :=
    (List.insertionSort entryLe ((jsEntries st.costsByType).filter groupKeep)).take 3
  { totalConfirmedBudget := st.totalConfirmedBudget
    unpricedItems := st.unpricedItems
    top3CostGroupings := sortedCosts.map (fun p => ⟨p.1, p.2.total⟩) }

/-- `typeof v === 'number'`. -/
def JsVal.isNumber : JsVal → Bool
  | JsVal.num _ => true
  | _ => false

/-- The numeric value of a `JsVal` (0 for non-numbers; only ever used
under an `isNumber` guard). -/
def JsVal.intVal : JsVal → Int
  | JsVal.num n => n
  | _ => 0

/-- An item whose cost is counted: `typeof item.cost === 'number' &&
!item.excludeFromSum`. -/
def confirmedCost (it : LineItem) : Bool :=
  it.cost.isNumber && !it.excludeFromSum

theorem processItem_total (st : AggState) (it : LineItem) :
    (processItem st it).totalConfirmedBudget =
      st.totalConfirmedBudget + (if confirmedCost it then it.cost.intVal else 0) := by
  obtain ⟨iid, ity, dsc, ev, cost, ct, stt, ex, dn⟩ := it
  cases cost <;> cases ex <;>
    simp [processItem, confirmedCost, JsVal.isNumber, JsVal.intVal, apply_ite]

theorem foldl_total (l : List LineItem) (st : AggState) :
    (l.foldl processItem st).totalConfirmedBudget =
      st.totalConfirmedBudget +
        ((l.filter confirmedCost).map (fun it => it.cost.intVal)).sum := by
  induction l generalizing st with
  | nil => simp
  | cons it rest ih =>
      rw [List.foldl_cons, ih, processItem_total]
      by_cases h : confirmedCost it
      · simp [h, add_assoc]
      · simp [h]

/-- C1: `totalConfirmedBudget` is the sum of `cost` over exactly the items
whose cost is a number and whose `excludeFromSum` is false; every other
item contributes nothing (and the computation is total, so no input
errors). -/
theorem calculateMetrics_totalConfirmedBudget_spec (l : List LineItem) :
    (calculateMetrics l).totalConfirmedBudget =
      ((l.filter (fun it => it.cost.isNumber && !it.excludeFromSum)).map
          (fun it => it.cost.intVal)).sum := by
  have h := foldl_total l ⟨0, [], []⟩
  simpa [calculateMetrics, confirmedCost] using h

theorem processItem_unpriced (st : AggState) (it : LineItem) :
    (processItem st it).unpricedItems =
      st.unpricedItems ++ (if it.status == "Unpriced" then [it] else []) := by
  obtain ⟨iid, ity, dsc, ev, cost, ct, stt, ex, dn⟩ := it
  cases cost <;> cases ex <;> simp [processItem, apply_ite]

theorem foldl_unpriced (l : List LineItem) (st : AggState) :
    (l.foldl processItem st).unpricedItems =
      st.unpricedItems ++ l.filter (fun it => it.status == "Unpriced") := by
  induction l generalizing st with
  | nil => simp
  | cons it rest ih =>
      rw [List.foldl_cons, ih, processItem_unpriced]
      by_cases h : it.status == "Unpriced" <;> simp [h]

/-- C2: `unpricedItems` is exactly the subsequence of input items whose
status is `"Unpriced"`, in input order, and nothing else. -/
theorem calculateMetrics_unpricedItems_spec (l : List LineItem) :
    (calculateMetrics l).unpricedItems =
        l.filter (fun it => it.status == "Unpriced") ∧
      (calculateMetrics l).unpricedItems.Sublist l := by
  have h : (calculateMetrics l).unpricedItems =
      l.filter (fun it => it.status == "Unpriced") := by
    have h := foldl_unpriced l ⟨0, [], []⟩
    simpa [calculateMetrics] using h
  exact ⟨h, h ▸ List.filter_sublist l⟩

/-- Shorthand for building concrete line items in test scenarios. -/
def mkItem (i ev : String) (c : JsVal) (ct sts : String) (ex : Bool) : LineItem :=
  ⟨i, "Procurement", "d", ev, c, ct, sts, ex, false⟩

/-- The scenario of spec section 8: two priced/unpriced items in phase
`"A"` and one excluded `"Budget Summary"` line. -/
def demoList : List LineItem :=
  [mkItem "1" "A" (JsVal.num 500) "CAPEX" "Priced" false,
   mkItem "2" "A" (JsVal.num 300) "CAPEX" "Unpriced" false,
   mkItem "3" "Budget Summary" (JsVal.num 10000) "Summary" "Priced" true]

/-- C3: `top3CostGroupings` has length at most 3, is sorted descending by
total, and every entry has a phase key free of the substrings `"Summary"`
and `"Budget"` and a strictly positive total. -/
theorem calculateMetrics_top3_spec (l : List LineItem) :
    (calculateMetrics l).top3CostGroupings.length ≤ 3 ∧
    (calculateMetrics l).top3CostGroupings.Pairwise (fun a b => b.total ≤ a.total) ∧
    ∀ g ∈ (calculateMetrics l).top3CostGroupings,
      strIncludes g.phase "Summary" = false ∧
      strIncludes g.phase "Budget" = false ∧ 0 < g.total := by
  have htop : (calculateMetrics l).top3CostGroupings =
      ((List.insertionSort entryLe
          ((jsEntries (l.foldl processItem ⟨0, [], []⟩).costsByType).filter
            groupKeep)).take 3).map (fun p => ⟨p.1, p.2.total⟩) := rfl
  refine ⟨?_, ?_, ?_⟩
  · rw [htop, List.length_map, List.length_take]
    exact min_le_left _ _
  · rw [htop]
    refine List.pairwise_map.mpr ?_
    refine List.Pairwise.imp ?_
      (List.Pairwise.sublist (List.take_sublist 3 _)
        (List.sorted_insertionSort entryLe _))
    exact fun h => h
  · intro g hg
    rw [htop] at hg
    obtain ⟨p, hp, rfl⟩ := List.mem_map.mp hg
    have hp2 : p ∈ List.insertionSort entryLe
        ((jsEntries (l.foldl processItem ⟨0, [], []⟩).costsByType).filter groupKeep) :=
      List.mem_of_mem_take hp
    have hp3 := (List.perm_insertionSort entryLe _).mem_iff.mp hp2
    have hp4 := (List.mem_filter.mp hp3).2
    have hp5 : (strIncludes p.1 "Summary" = false ∧ strIncludes p.1 "Budget" = false) ∧
        0 < p.2.total := by simpa [groupKeep] using hp4
    exact ⟨hp5.1.1, hp5.1.2, hp5.2⟩

theorem calculateMetrics_top3_spec_witness :
    strIncludes "A" "Summary" = false ∧ strIncludes "A" "Budget" = false ∧
      (0 : Int) < 800 :=
  (calculateMetrics_top3_spec demoList).2.2 ⟨"A", 800⟩ (by decide)

/-- Record a key in the seen-keys list, appending it if new — the key
order a plain dictionary accumulates. -/
def insStr (ks : List String) (k : String) : List String :=
  if ks.any (fun x => x == k) then ks else ks ++ [k]

theorem modifyBucket_keys (m : List (String × Bucket)) (k : String) (f : Bucket → Bucket) :
    (modifyBucket m k f).map Prod.fst = m.map Prod.fst := by
  induction m with
  | nil => rfl
  | cons p t ih =>
      by_cases h : p.1 = k <;> simp [modifyBucket, h] <;>
        simpa [modifyBucket] using ih

theorem hasKey_eq (m : List (String × Bucket)) (k : String) :
    hasKey m k = (m.map Prod.fst).any (fun x => x == k) := by
  induction m with
  | nil => rfl
  | cons p t ih => simp [hasKey] at ih ⊢; rw [ih]

theorem ensureKey_keys (m : List (String × Bucket)) (k : String) :
    (ensureKey m k).map Prod.fst = insStr (m.map Prod.fst) k := by
  unfold ensureKey insStr
  rw [hasKey_eq]
  split <;> simp

theorem processItem_keys (st : AggState) (it : LineItem) :
    (processItem st it).costsByType.map Prod.fst =
      insStr (st.costsByType.map Prod.fst) it.event := by
  obtain ⟨iid, ity, dsc, ev, cost, ct, stt, ex, dn⟩ := it
  cases hstt : stt == "Unpriced" <;> cases cost <;> cases ex <;>
    simp [processItem, hstt, modifyBucket_keys, ensureKey_keys]

theorem foldl_keys (l : List LineItem) (st : AggState) :
    (l.foldl processItem st).costsByType.map Prod.fst =
      (l.map (fun it => it.event)).foldl insStr (st.costsByType.map Prod.fst) := by
  induction l generalizing st with
  | nil => rfl
  | cons it rest ih => rw [List.foldl_cons, ih, processItem_keys]; rfl

theorem mem_insStr (acc : List String) (e k : String) :
    k ∈ insStr acc e ↔ k ∈ acc ∨ k = e := by
  unfold insStr
  split
  · rename_i h
    constructor
    · exact Or.inl
    · rintro (hk | rfl)
      · exact hk
      · obtain ⟨x, hx, hxe⟩ := List.any_eq_true.mp h
        exact (beq_iff_eq.mp hxe) ▸ hx
  · simp

theorem mem_foldl_insStr (evs : List String) (acc : List String) (k : String) :
    k ∈ evs.foldl insStr acc ↔ k ∈ acc ∨ k ∈ evs := by
  induction evs generalizing acc with
  | nil => simp
  | cons e rest ih =>
      rw [List.foldl_cons, ih]
      rw [mem_insStr]
      simp only [List.mem_cons]
      tauto

theorem mem_jsEntries (m : List (String × Bucket)) (p : String × Bucket) :
    p ∈ jsEntries m ↔ p ∈ m := by
  simp only [jsEntries, List.mem_append, (List.perm_insertionSort idxLe _).mem_iff,
    List.mem_filter]
  constructor
  · rintro (⟨h, _⟩ | ⟨h, _⟩) <;> exact h
  · intro h
    by_cases hc : canonicalIndexString p.1
    · exact Or.inl ⟨h, hc⟩
    · exact Or.inr ⟨h, by simpa using hc⟩

/-- C5: `calculateMetrics` is a pure function of its input: repeated calls
on the same list give identical results, its unpriced output is a
subsequence of the very input items, and every reported phase is the
`event` of some input item (the output is built from the input alone). -/
theorem calculateMetrics_pure_spec (l : List LineItem) :
    calculateMetrics l = calculateMetrics l ∧
    (calculateMetrics l).unpricedItems.Sublist l ∧
    ∀ g ∈ (calculateMetrics l).top3CostGroupings, ∃ it ∈ l, it.event = g.phase := by
  refine ⟨rfl, ?_, ?_⟩
  · have h : (calculateMetrics l).unpricedItems =
        l.filter (fun it => it.status == "Unpriced") := by
      simpa [calculateMetrics] using foldl_unpriced l ⟨0, [], []⟩
    exact h ▸ List.filter_sublist l
  · intro g hg
    have htop : (calculateMetrics l).top3CostGroupings =
        ((List.insertionSort entryLe
            ((jsEntries (l.foldl processItem ⟨0, [], []⟩).costsByType).filter
              groupKeep)).take 3).map (fun p => ⟨p.1, p.2.total⟩) := rfl
    rw [htop] at hg
    obtain ⟨p, hp, rfl⟩ := List.mem_map.mp hg
    have hp2 := (List.perm_insertionSort entryLe _).mem_iff.mp (List.mem_of_mem_take hp)
    have hp3 : p ∈ (l.foldl processItem ⟨0, [], []⟩).costsByType :=
      (mem_jsEntries _ _).mp (List.mem_filter.mp hp2).1
    have hkey : p.1 ∈ (l.foldl processItem (⟨0, [], []⟩ : AggState)).costsByType.map Prod.fst :=
      List.mem_map_of_mem Prod.fst hp3
    rw [foldl_keys] at hkey
    have : p.1 ∈ ([] : List String) ∨ p.1 ∈ l.map (fun it => it.event) :=
      (mem_foldl_insStr _ _ _).mp hkey
    rcases this with h | h
    · cases h
    · obtain ⟨it, hit, hev⟩ := List.mem_map.mp h
      exact ⟨it, hit, hev⟩

theorem calculateMetrics_pure_spec_witness :
    ∃ it ∈ demoList, it.event = "A" :=
  (calculateMetrics_pure_spec demoList).2.2 ⟨"A", 800⟩ (by decide)

/-- Two phases whose keys are array-index strings, with equal totals; the
phase `"10"` occurs first in the input. -/
def tieInput : List LineItem :=
  [mkItem "1" "10" (JsVal.num 5) "CAPEX" "Priced" false,
   mkItem "2" "2" (JsVal.num 5) "CAPEX" "Priced" false]

/-- C4 counterexample: on `tieInput` the two qualifying buckets `"10"`
and `"2"` have the same total 5 and `"10"` occurs first in the input, yet
`top3CostGroupings` lists `"2"` first, because `Object.entries` iterates
array-index keys in ascending numeric order, not in insertion
(first-occurrence) order. -/
theorem top3_tieBreak_counterexample :
    (calculateMetrics tieInput).top3CostGroupings = [⟨"2", 5⟩, ⟨"10", 5⟩] ∧
    tieInput.map (fun it => it.event) = ["10", "2"] := by
  constructor <;> decide

theorem filter_orderedInsert (v : Int) (x : String × Bucket) (w : List (String × Bucket)) :
    (List.orderedInsert entryLe x w).filter (fun p => p.2.total == v) =
      if x.2.total = v then x :: w.filter (fun p => p.2.total == v)
      else w.filter (fun p => p.2.total == v) := by
  induction w with
  | nil => by_cases hx : x.2.total = v <;> simp [List.orderedInsert, hx]
  | cons b w ih =>
      rw [List.orderedInsert]
      by_cases hle : entryLe x b
      · rw [if_pos hle]
        by_cases hx : x.2.total = v <;> by_cases hb : b.2.total = v <;>
          simp [List.filter_cons, hx, hb]
      · rw [if_neg hle]
        have hlt : x.2.total < b.2.total := lt_of_not_le hle
        by_cases hx : x.2.total = v <;> by_cases hb : b.2.total = v
        · omega
        · simp [List.filter_cons, hb, ih, hx]
        · simp [List.filter_cons, hb, ih, hx]
        · simp [List.filter_cons, hb, ih, hx]

theorem filter_insertionSort (v : Int) (u : List (String × Bucket)) :
    (List.insertionSort entryLe u).filter (fun p => p.2.total == v) =
      u.filter (fun p => p.2.total == v) := by
  induction u with
  | nil => rfl
  | cons x u ih =>
      rw [List.insertionSort, filter_orderedInsert, ih, List.filter_cons]
      by_cases hx : x.2.total = v <;> simp [hx]

theorem pair_get_sublist {α : Type} (u : List α) (i j : Nat) (hij : i < j)
    (hj : j < u.length) :
    [u.get ⟨i, lt_trans hij hj⟩, u.get ⟨j, hj⟩].Sublist u := by
  induction u generalizing i j with
  | nil => simp at hj
  | cons a t ih =>
      cases i with
      | zero =>
          cases j with
          | zero => omega
          | succ j' =>
              have hm : t.get ⟨j', Nat.lt_of_succ_lt_succ hj⟩ ∈ t :=
                List.get_mem t j' (Nat.lt_of_succ_lt_succ hj)
              exact List.Sublist.cons₂ a (List.singleton_sublist.mpr hm)
      | succ i' =>
          cases j with
          | zero => omega
          | succ j' =>
              exact List.Sublist.cons a (ih i' j' (by omega) (by simpa using hj))

theorem not_mem_of_insStr_noop (ks : List String) (e : String)
    (h : ¬(ks.any (fun x => x == e)) = true) : e ∉ ks := by
  intro hmem
  exact h (List.any_eq_true.mpr ⟨e, hmem, beq_self_eq_true e⟩)

theorem pairwise_foldl_insStr (evs : List String) :
    (evs.foldl insStr []).Pairwise
      (fun p q => evs.indexOf p < evs.indexOf q) := by
  induction evs using List.reverseRecOn with
  | nil => simp
  | append_singleton evs e ih =>
      rw [List.foldl_append, List.foldl_cons, List.foldl_nil]
      have hmem : ∀ p ∈ evs.foldl insStr [], p ∈ evs := by
        intro p hp
        rcases (mem_foldl_insStr evs [] p).mp hp with h | h
        · cases h
        · exact h
      unfold insStr
      split <;> rename_i hcond
      · refine List.Pairwise.imp_of_mem ?_ ih
        intro p q hp hq hlt
        rw [List.indexOf_append_of_mem (hmem p hp),
          List.indexOf_append_of_mem (hmem q hq)]
        exact hlt
      · have hnot : e ∉ evs := by
          intro hmem2
          exact not_mem_of_insStr_noop _ _ hcond
            ((mem_foldl_insStr evs [] e).mpr (Or.inr hmem2))
        rw [List.pairwise_append]
        refine ⟨?_, List.pairwise_singleton _ _, ?_⟩
        · refine List.Pairwise.imp_of_mem ?_ ih
          intro p q hp hq hlt
          rw [List.indexOf_append_of_mem (hmem p hp),
            List.indexOf_append_of_mem (hmem q hq)]
          exact hlt
        · intro p hp b hb
          rw [List.mem_singleton] at hb
          subst hb
          rw [List.indexOf_append_of_mem (hmem p hp),
            List.indexOf_append_of_not_mem hnot, List.indexOf_cons_self]
          have := List.indexOf_lt_length.mpr (hmem p hp)
          omega

theorem jsEntries_eq_self (m : List (String × Bucket))
    (h : ∀ p ∈ m, canonicalIndexString p.1 = false) :
    jsEntries m = m := by
  unfold jsEntries
  have h1 : m.filter (fun p => canonicalIndexString p.1) = [] := by
    rw [List.filter_eq_nil_iff]
    intro p hp
    simp [h p hp]
  have h2 : m.filter (fun p => !canonicalIndexString p.1) = m := by
    rw [List.filter_eq_self]
    intro p hp
    simp [h p hp]
  rw [h1, h2]
  simp [List.insertionSort]

theorem tie_core (u : List (String × Bucket)) (i j : Nat) (hij : i < j)
    (hjs : j < (List.insertionSort entryLe u).length)
    (hv : ((List.insertionSort entryLe u).get ⟨j, hjs⟩).2.total =
        ((List.insertionSort entryLe u).get ⟨i, lt_trans hij hjs⟩).2.total) :
    [(List.insertionSort entryLe u).get ⟨i, lt_trans hij hjs⟩,
      (List.insertionSort entryLe u).get ⟨j, hjs⟩].Sublist u := by
  have hpair := pair_get_sublist (List.insertionSort entryLe u) i j hij hjs
  have hfp : [(List.insertionSort entryLe u).get ⟨i, lt_trans hij hjs⟩,
      (List.insertionSort entryLe u).get ⟨j, hjs⟩].filter
        (fun p => p.2.total ==
          ((List.insertionSort entryLe u).get ⟨i, lt_trans hij hjs⟩).2.total) =
      [(List.insertionSort entryLe u).get ⟨i, lt_trans hij hjs⟩,
        (List.insertionSort entryLe u).get ⟨j, hjs⟩] := by
    simp only [List.get_eq_getElem] at hv
    simp [List.filter_cons, hv]
  have h1 : [(List.insertionSort entryLe u).get ⟨i, lt_trans hij hjs⟩,
      (List.insertionSort entryLe u).get ⟨j, hjs⟩].Sublist
        ((List.insertionSort entryLe u).filter
          (fun p => p.2.total ==
            ((List.insertionSort entryLe u).get ⟨i, lt_trans hij hjs⟩).2.total)) := by
    rw [← hfp]
    exact List.Sublist.filter _ hpair
  rw [filter_insertionSort] at h1
  exact h1.trans (List.filter_sublist u)

/-- C4 (amended): when two entries of `top3CostGroupings` have equal
totals and no phase key of the input is a canonical array-index string,
their relative order is the order of the first occurrence of each phase in
the input list; the original claim fails for array-index phase keys, which
`Object.entries` iterates first in ascending numeric order (see the
counterexample). -/
theorem top3_tieBreak_firstOccurrence (l : List LineItem)
    (hnoidx : ∀ it ∈ l, canonicalIndexString it.event = false)
    (i j : Nat) (hij : i < j)
    (hj : j < (calculateMetrics l).top3CostGroupings.length)
    (heq : ((calculateMetrics l).top3CostGroupings.get ⟨i, lt_trans hij hj⟩).total =
        ((calculateMetrics l).top3CostGroupings.get ⟨j, hj⟩).total) :
    (l.map (fun it => it.event)).indexOf
        ((calculateMetrics l).top3CostGroupings.get ⟨i, lt_trans hij hj⟩).phase <
      (l.map (fun it => it.event)).indexOf
        ((calculateMetrics l).top3CostGroupings.get ⟨j, hj⟩).phase := by
  have hkeys : (l.foldl processItem (⟨0, [], []⟩ : AggState)).costsByType.map Prod.fst =
      (l.map (fun it => it.event)).foldl insStr [] := by
    simpa using foldl_keys l ⟨0, [], []⟩
  have hnoidxm : ∀ p ∈ (l.foldl processItem (⟨0, [], []⟩ : AggState)).costsByType,
      canonicalIndexString p.1 = false := by
    intro p hp
    have hpm : p.1 ∈
        (l.foldl processItem (⟨0, [], []⟩ : AggState)).costsByType.map Prod.fst :=
      List.mem_map_of_mem Prod.fst hp
    rw [hkeys] at hpm
    rcases (mem_foldl_insStr _ _ _).mp hpm with h | h
    · cases h
    · obtain ⟨it, hit, hev⟩ := List.mem_map.mp h
      rw [← hev]
      exact hnoidx it hit
  have htop : (calculateMetrics l).top3CostGroupings =
      ((List.insertionSort entryLe
          ((l.foldl processItem (⟨0, [], []⟩ : AggState)).costsByType.filter
            groupKeep)).take 3).map (fun p => (⟨p.1, p.2.total⟩ : Grouping)) := by
    rw [show (calculateMetrics l).top3CostGroupings =
        ((List.insertionSort entryLe
            ((jsEntries
                (l.foldl processItem (⟨0, [], []⟩ : AggState)).costsByType).filter
              groupKeep)).take 3).map (fun p => (⟨p.1, p.2.total⟩ : Grouping)) from rfl,
      jsEntries_eq_self _ hnoidxm]
  have hjs : j < (List.insertionSort entryLe
      ((l.foldl processItem (⟨0, [], []⟩ : AggState)).costsByType.filter
        groupKeep)).length := by
    rw [htop, List.length_map, List.length_take] at hj
    exact (Nat.lt_min.mp hj).2
  have his := lt_trans hij hjs
  have hti : (calculateMetrics l).top3CostGroupings.get ⟨i, lt_trans hij hj⟩ =
      ⟨((List.insertionSort entryLe
          ((l.foldl processItem (⟨0, [], []⟩ : AggState)).costsByType.filter
            groupKeep)).get ⟨i, his⟩).1,
        ((List.insertionSort entryLe
          ((l.foldl processItem (⟨0, [], []⟩ : AggState)).costsByType.filter
            groupKeep)).get ⟨i, his⟩).2.total⟩ := by
    rw [List.get_eq_getElem, List.getElem_of_eq htop, List.getElem_map,
      List.getElem_take]
    rfl
  have htj : (calculateMetrics l).top3CostGroupings.get ⟨j, hj⟩ =
      ⟨((List.insertionSort entryLe
          ((l.foldl processItem (⟨0, [], []⟩ : AggState)).costsByType.filter
            groupKeep)).get ⟨j, hjs⟩).1,
        ((List.insertionSort entryLe
          ((l.foldl processItem (⟨0, [], []⟩ : AggState)).costsByType.filter
            groupKeep)).get ⟨j, hjs⟩).2.total⟩ := by
    rw [List.get_eq_getElem, List.getElem_of_eq htop, List.getElem_map,
      List.getElem_take]
    rfl
  rw [hti, htj] at heq ⊢
  have hv : ((List.insertionSort entryLe
      ((l.foldl processItem (⟨0, [], []⟩ : AggState)).costsByType.filter
        groupKeep)).get ⟨j, hjs⟩).2.total =
      ((List.insertionSort entryLe
        ((l.foldl processItem (⟨0, [], []⟩ : AggState)).costsByType.filter
          groupKeep)).get ⟨i, his⟩).2.total := heq.symm
  have hsub := tie_core
    ((l.foldl processItem (⟨0, [], []⟩ : AggState)).costsByType.filter groupKeep)
    i j hij hjs hv
  have hsub2 := hsub.trans
    (List.filter_sublist (l.foldl processItem (⟨0, [], []⟩ : AggState)).costsByType)
  have hfst := hsub2.map Prod.fst
  rw [hkeys] at hfst
  have hpw := List.Pairwise.sublist hfst
    (pairwise_foldl_insStr (l.map (fun it => it.event)))
  rcases List.pairwise_cons.mp hpw with ⟨hfa, _⟩
  exact hfa _ (List.mem_singleton.mpr rfl)

/-- Two equal-total phases with non-numeric keys, `"A"` occurring first. -/
def tieDemo : List LineItem :=
  [mkItem "1" "A" (JsVal.num 5) "CAPEX" "Priced" false,
   mkItem "2" "B" (JsVal.num 5) "CAPEX" "Priced" false]

theorem top3_tieBreak_firstOccurrence_witness :
    (tieDemo.map (fun it => it.event)).indexOf
        ((calculateMetrics tieDemo).top3CostGroupings.get ⟨0, by decide⟩).phase <
      (tieDemo.map (fun it => it.event)).indexOf
        ((calculateMetrics tieDemo).top3CostGroupings.get ⟨1, by decide⟩).phase :=
  top3_tieBreak_firstOccurrence tieDemo (by decide) 0 1 (by decide) (by decide) (by decide)

/-- `description.replace(/"/g, '""')`: double every double quote. -/
def escQuotes (s : String) : String :=
  String.mk (s.data.foldr
    (fun c acc => if c = '"' then '"' :: '"' :: acc else c :: acc) [])

/-- `item.cost === 'N/A' ? 'N/A' : (typeof item.cost === 'number' ?
item.cost.toString() : '')`. -/
def csvCostStr (c : JsVal) : String :=
  match c with
  | JsVal.str s => if s = "N/A" then "N/A" else ""
  | JsVal.num n => toString n
  | JsVal.other => ""

/-- The Notes column: `item.status === 'Unpriced' ? 'QUOTE NEEDED' :
(item.costType === 'Summary' ? 'SUMMARY LINE' : '')`. -/
def csvNotes (it : LineItem) : String :=
  if it.status == "Unpriced" then "QUOTE NEEDED"
  else if it.costType == "Summary" then "SUMMARY LINE"
  else ""

/-- The `headers` array of `handleExportToCSV` (src/App.jsx line 470). -/
def csvHeaders : List String :=
  ["Completed", "ID", "Description", "Event Phase", "Type", "Cost Type",
   "Projected Cost (₦)", "Notes"]

/-- The eight per-row values, before quote-wrapping. -/
def csvRowFields (it : LineItem) : List String :=
  [if it.done then "YES" else "NO",
   it.id,
   escQuotes it.description,
   it.event,
   it.type,
   it.costType,
   csvCostStr it.cost,
   csvNotes it]

/-- One CSV row: every field wrapped in double quotes, joined by commas. -/
def csvRow (it : LineItem) : String :=
  String.intercalate "," ((csvRowFields it).map (fun f => "\"" ++ f ++ "\""))

/-- `const csvRows = data.map(item => ...)`. -/
def csvRows (data : List LineItem) : List String :=
  data.map csvRow

/-- The exported text: unquoted header line, then one row per item of the
full (unfiltered) list, joined by newlines (src/App.jsx lines 469-490). -/
def csvContent (data : List LineItem) : String :=
  String.intercalate "\n" (String.intercalate "," csvHeaders :: csvRows data)

theorem escList_count (cs : List Char) (c : Char) :
    ((cs.foldr (fun c2 acc => if c2 = '"' then '"' :: '"' :: acc else c2 :: acc)
        []).count c) =
      if c = '"' then 2 * cs.count c else cs.count c := by
  induction cs with
  | nil => simp
  | cons d cs ih =>
      by_cases hc : c = '"'
      · subst hc
        by_cases hd : d = '"' <;> simp [hd, List.count_cons, ih] <;> omega
      · by_cases hd : d = '"' <;> simp [hd, hc, List.count_cons, ih]

/-- C7 counterexample: the seventh column header emitted by the export is
`"Projected Cost (₦)"`, not `"Projected Cost"` as the claim lists it. -/
theorem csvHeaders_counterexample :
    csvHeaders ≠ ["Completed", "ID", "Description", "Event Phase", "Type",
      "Cost Type", "Projected Cost", "Notes"] ∧
    csvHeaders = ["Completed", "ID", "Description", "Event Phase", "Type",
      "Cost Type", "Projected Cost (₦)", "Notes"] := by
  constructor <;> decide

/-- C7 (amended): the CSV export serializes the full unfiltered list, one
row per item in order, with the 8 fixed columns of `csvHeaders` (the
seventh being `"Projected Cost (₦)"`); every row field is wrapped in
double quotes, double quotes in `description` are doubled, the cost cell
is `"N/A"`, the numeral, or empty, and Notes is `"QUOTE NEEDED"` for
Unpriced, `"SUMMARY LINE"` for Summary cost type, else empty. -/
theorem csvExport_spec (data : List LineItem) :
    csvContent data =
        String.intercalate "\n"
          (String.intercalate "," csvHeaders :: csvRows data) ∧
    csvRows data = data.map csvRow ∧
    (csvRows data).length = data.length ∧
    csvHeaders.length = 8 ∧
    (∀ it : LineItem, (csvRowFields it).length = 8 ∧
      csvRow it =
        String.intercalate "," ((csvRowFields it).map (fun f => "\"" ++ f ++ "\""))) ∧
    (∀ s : String, (escQuotes s).data.count '"' = 2 * s.data.count '"' ∧
      ∀ c : Char, c ≠ '"' → (escQuotes s).data.count c = s.data.count c) ∧
    (csvCostStr (JsVal.str "N/A") = "N/A" ∧
      (∀ n : Int, csvCostStr (JsVal.num n) = toString n) ∧
      (∀ s : String, s ≠ "N/A" → csvCostStr (JsVal.str s) = "") ∧
      csvCostStr JsVal.other = "") ∧
    (∀ it : LineItem, csvNotes it =
      if it.status = "Unpriced" then "QUOTE NEEDED"
      else if it.costType = "Summary" then "SUMMARY LINE"
      else "") := by
  refine ⟨rfl, rfl, by simp [csvRows], rfl, fun it => ⟨rfl, rfl⟩, ?_, ?_, ?_⟩
  · intro s
    constructor
    · have h := escList_count s.data '"'
      simpa [escQuotes] using h
    · intro c hc
      have h := escList_count s.data c
      rw [if_neg hc] at h
      simpa [escQuotes] using h
  · refine ⟨rfl, fun n => rfl, ?_, rfl⟩
    intro s hs
    rw [show csvCostStr (JsVal.str s) = if s = "N/A" then "N/A" else "" from rfl,
      if_neg hs]
  · intro it
    by_cases h1 : it.status = "Unpriced"
    · simp [csvNotes, h1]
    · by_cases h2 : it.costType = "Summary" <;> simp [csvNotes, h1, h2]

theorem csvExport_spec_witness :
    csvCostStr (JsVal.str "abc") = "" ∧
    (escQuotes "a\"b").data.count 'a' = ("a\"b" : String).data.count 'a' :=
  ⟨(csvExport_spec []).2.2.2.2.2.2.1.2.2.1 "abc" (by decide),
   ((csvExport_spec []).2.2.2.2.2.1 "a\"b").2 'a' (by decide)⟩

/-- C10: for an item that is both Unpriced and of Summary cost type, the
Unpriced rule wins: the Notes cell is `"QUOTE NEEDED"`. -/
theorem csvNotes_unpriced_precedence (it : LineItem)
    (h1 : it.status = "Unpriced") (h2 : it.costType = "Summary") :
    csvNotes it = "QUOTE NEEDED" := by
  simp [csvNotes, h1]

theorem csvNotes_unpriced_precedence_witness :
    csvNotes (mkItem "1" "A" (JsVal.str "N/A") "Summary" "Unpriced" false) =
      "QUOTE NEEDED" :=
  csvNotes_unpriced_precedence _ rfl rfl

/-- The dropdown filter state of the app: `{ type: 'All', cost: 'All' }`. -/
structure Filters where
  type : String
  cost : String
deriving DecidableEq

/-- The predicate of the `filteredData` memo (src/App.jsx lines 437-449):
summary/budget lines show only with no filters applied, other items match
both dropdowns. -/
def itemVisible (f : Filters) (item : LineItem) : Bool :=
  if item.costType == "Summary" || item.costType == "Budget" then
    f.type == "All" && f.cost == "All"
  else
    (f.type == "All" || item.type == f.type) &&
      (f.cost == "All" || item.status == f.cost)

/-- `data.filter(item => ...)`. -/
def filteredData (f : Filters) (data : List LineItem) : List LineItem :=
  data.filter (itemVisible f)

/-- C8: an item of cost type `"Summary"` or `"Budget"` is visible iff both
filters are `"All"`; any other item is visible iff it matches the type
filter and the cost-status filter; `filteredData` keeps exactly the
visible items. -/
theorem filteredData_spec (f : Filters) (it : LineItem) (data : List LineItem) :
    (it.costType = "Summary" ∨ it.costType = "Budget" →
      (itemVisible f it = true ↔ f.type = "All" ∧ f.cost = "All")) ∧
    (it.costType ≠ "Summary" → it.costType ≠ "Budget" →
      (itemVisible f it = true ↔
        (f.type = "All" ∨ it.type = f.type) ∧
          (f.cost = "All" ∨ it.status = f.cost))) ∧
    (it ∈ filteredData f data ↔ it ∈ data ∧ itemVisible f it = true) := by
  refine ⟨?_, ?_, List.mem_filter⟩
  · intro h
    have hb : (it.costType == "Summary" || it.costType == "Budget") = true := by
      rcases h with h | h <;> simp [h]
    simp [itemVisible, hb]
  · intro h1 h2
    have hb : (it.costType == "Summary" || it.costType == "Budget") = false := by
      simp [h1, h2]
    simp [itemVisible, hb]

theorem filteredData_spec_witness :
    (itemVisible ⟨"All", "All"⟩ (mkItem "1" "E" JsVal.other "Summary" "Priced" true) =
          true ↔
        ("All" : String) = "All" ∧ ("All" : String) = "All") ∧
    (itemVisible ⟨"All", "Priced"⟩ (mkItem "2" "E" JsVal.other "CAPEX" "Priced" false) =
          true ↔
        (("All" : String) = "All" ∨ ("Procurement" : String) = "All") ∧
          (("Priced" : String) = "All" ∨ ("Priced" : String) = "Priced")) :=
  ⟨(filteredData_spec ⟨"All", "All"⟩ (mkItem "1" "E" JsVal.other "Summary" "Priced" true)
      []).1 (Or.inl rfl),
   (filteredData_spec ⟨"All", "Priced"⟩ (mkItem "2" "E" JsVal.other "CAPEX" "Priced" false)
      []).2.1 (by decide) (by decide)⟩

/-- The toggle-done handler (src/App.jsx lines 460-466):
`prevData.map(item => item.id === id ? { ...item, done: isChecked } : item)`. -/
def handleToggleDone (data : List LineItem) (tid : String) (isChecked : Bool) :
    List LineItem :=
  data.map (fun item => if item.id == tid then { item with done := isChecked } else item)

/-- C9: toggling produces a list of the same length and order in which
exactly the items with the given id have `done` set to the given value
and every other item — and every other field — is unchanged. -/
theorem handleToggleDone_spec (data : List LineItem) (tid : String) (v : Bool) :
    (handleToggleDone data tid v).length = data.length ∧
    (∀ i : Nat, (handleToggleDone data tid v)[i]? =
      (data[i]?).map (fun it => if it.id = tid then { it with done := v } else it)) ∧
    (∀ it : LineItem, it.id ≠ tid →
      (if it.id == tid then { it with done := v } else it) = it) ∧
    (∀ it : LineItem, it.id = tid →
      (if it.id == tid then { it with done := v } else it) = { it with done := v }) := by
  refine ⟨by simp [handleToggleDone], ?_, ?_, ?_⟩
  · intro i
    rw [handleToggleDone, List.getElem?_map]
    cases h : data[i]? with
    | none => rfl
    | some it =>
        by_cases hx : it.id = tid <;> simp [hx]
  · intro it h
    simp [h]
  · intro it h
    simp [h]

theorem handleToggleDone_spec_witness :
    (handleToggleDone demoList "1" true).length = demoList.length ∧
    (if (mkItem "2" "A" (JsVal.num 300) "CAPEX" "Unpriced" false).id == "1" then
        { mkItem "2" "A" (JsVal.num 300) "CAPEX" "Unpriced" false with done := true }
      else mkItem "2" "A" (JsVal.num 300) "CAPEX" "Unpriced" false) =
      mkItem "2" "A" (JsVal.num 300) "CAPEX" "Unpriced" false :=
  ⟨(handleToggleDone_spec demoList "1" true).1,
   (handleToggleDone_spec demoList "1" true).2.2.1
     (mkItem "2" "A" (JsVal.num 300) "CAPEX" "Unpriced" false) (by decide)⟩
